import Mathlib

/-!
Verification of the recipe static-site generator (`download_images.py`,
`generate_site.py`) against its natural-language specification.

The Python code is shallowly embedded: recipes are records, the filesystem is
a list of existing filenames, the manifest is an association list, and the
network is an oracle `fetchOk : String → String → Bool` saying whether the
fetch of a given (recipe id, url) pair succeeds.
-/

namespace Recipes

/-- A recipe record, keeping only the fields `download_images.py` touches.
`image` models the JSON `image` field; an absent field reads as `[]`,
matching `recipe.get('image', [])` in the source. -/
structure Recipe where
  identifier : Option String
  name : Option String
  image : List String
  localImage : Option String
deriving DecidableEq

/-- The reason strings computed in `download_images` (lines 58-68). -/
inductive Reason where
  | newImage
  | urlChanged
  | notTracked
deriving DecidableEq

/-- The download decision of `download_images.py` lines 58-68, in the source's
order: `if not output_file.exists()` → new image; `elif recipe_id in image_map
and image_map[recipe_id] != image_url` → URL changed; `elif recipe_id not in
image_map` → not tracked; else no download. `tracked` is
`image_map.get(recipe_id)`. -/
def needs_download (fileExists : Bool) (tracked : Option String) (imageUrl : String) :
    Option Reason :=
  if fileExists = false then some Reason.newImage
  else if tracked.isSome ∧ tracked ≠ some imageUrl then some Reason.urlChanged
  else if tracked = none then some Reason.notTracked
  else none

/-- Modelled from the spec's decision rule, in the spec's tie-break order:
(1) file missing → new; (2) identifier absent from manifest → not tracked;
(3) recorded URL differs → URL changed; (4) otherwise skip. Kept separate
from `needs_download` so the two can be compared. -/
def spec_decision (fileExists : Bool) (tracked : Option String) (imageUrl : String) :
    Option Reason :=
  if fileExists = false then some Reason.newImage
  else if tracked = none then some Reason.notTracked
  else if tracked ≠ some imageUrl then some Reason.urlChanged
  else none

/-- `dict` lookup on the manifest association list. -/
def lookupMap : List (String × String) → String → Option String
  | [], _ => none
  | (a, b) :: t, k => if a = k then some b else lookupMap t k

/-- `image_map[recipe_id] = image_url`: update in place if present, else append. -/
def setMap : List (String × String) → String → String → List (String × String)
  | [], k, v => [(k, v)]
  | (a, b) :: t, k, v => if a = k then (k, v) :: t else (a, b) :: setMap t k v

/-- Characters Python's `urllib.parse` accepts inside a URL scheme. -/
def isSchemeChar (c : Char) : Bool :=
  c.isAlpha || c.isDigit || c = '+' || c = '-' || c = '.'

/-- Strip a leading `scheme:` from a URL, as `urlsplit` does: there must be a
colon with a non-empty run of scheme characters before it. -/
def stripScheme (s : List Char) : List Char :=
  let pre := s.takeWhile (fun c => c ≠ ':')
  if pre.length < s.length ∧ pre ≠ [] ∧ pre.all isSchemeChar then
    s.drop (pre.length + 1)
  else s

/-- Strip a leading `//netloc` from the scheme-less remainder, as `urlsplit`
does: the netloc runs to the next `/`, `?` or `#`. -/
def stripNetloc : List Char → List Char
  | '/' :: '/' :: rest => rest.dropWhile (fun c => c ≠ '/' ∧ c ≠ '?' ∧ c ≠ '#')
  | s => s

/-- The `path` component of `urlparse(url)`: drop the fragment, the scheme,
the netloc and the query. -/
def urlPath (url : List Char) : List Char :=
  (stripNetloc (stripScheme (url.takeWhile (fun c => c ≠ '#')))).takeWhile
    (fun c => c ≠ '?')

/-- `os.path.splitext(p)[1]`: the extension starts at the last dot of the
final path component, provided that dot is not part of the component's
leading run of dots. -/
def extOfPath (p : List Char) : List Char :=
  let b := (p.reverse.takeWhile (fun c => c ≠ '/')).reverse
  let stem := b.dropWhile (fun c => c = '.')
  if stem.any (fun c => c = '.') then
    '.' :: (stem.reverse.takeWhile (fun c => c ≠ '.')).reverse
  else []

/-- `os.path.splitext(urlparse(image_url).path)[1]` as a `String`. -/
def extOfUrl (url : String) : String :=
  (extOfPath (urlPath url.toList)).asString

/-- `os.path.splitext(parsed.path)[1] or '.jpg'` (line 53). -/
def imageExt (url : String) : String :=
  if extOfUrl url = "" then ".jpg" else extOfUrl url

/-- The mutable state of a `download_images` run: files present in the output
directory, the manifest, and the four counters. -/
structure St where
  files : List String
  imageMap : List (String × String)
  downloaded : Nat
  updated : Nat
  skipped : Nat
  failed : Nat
deriving DecidableEq

/-- `recipe.get('identifier', f'recipe-{i}')` for the recipe at 1-based
position `i`. -/
def effId (i : Nat) (r : Recipe) : String :=
  r.identifier.getD ("recipe-" ++ toString i)

/-- One iteration of the loop of `download_images` (lines 39-93): skip when
the image list is empty; otherwise decide via `needs_download`, bump
`updated` or `downloaded`, attempt the fetch, and on success record the file,
the manifest entry and `localImage`; on failure bump `failed` and `continue`
(so `localImage` is not set). On the skip path `localImage` is still set. -/
def processRecipe (fetchOk : String → String → Bool) (i : Nat) (st : St) (r : Recipe) :
    St × Recipe :=
  match r.image with
  | [] => ({ st with skipped := st.skipped + 1 }, r)
  | imageUrl :: _ =>
    let recipeId := effId i r
    let filename := recipeId ++ imageExt imageUrl
    match needs_download (st.files.contains filename) (lookupMap st.imageMap recipeId)
        imageUrl with
    | some reason =>
      let st1 := if reason = Reason.urlChanged
        then { st with updated := st.updated + 1 }
        else { st with downloaded := st.downloaded + 1 }
      if fetchOk recipeId imageUrl then
        ({ st1 with
            files := if st1.files.contains filename then st1.files else filename :: st1.files,
            imageMap := setMap st1.imageMap recipeId imageUrl },
         { r with localImage := some ("images/" ++ filename) })
      else
        ({ st1 with failed := st1.failed + 1 }, r)
    | none =>
      ({ st with skipped := st.skipped + 1 },
       { r with localImage := some ("images/" ++ filename) })

/-- The whole loop of `download_images`, enumerating from position `i`. -/
def processAll (fetchOk : String → String → Bool) : Nat → St → List Recipe → St × List Recipe
  | _, st, [] => (st, [])
  | i, st, r :: rs =>
    let pr := processRecipe fetchOk i st r
    let prs := processAll fetchOk (i + 1) pr.1 rs
    (prs.1, pr.2 :: prs.2)

/-- `download_images(recipes_file, output_dir)`: counters start at zero, the
loop enumerates from 1, and the initial files and manifest come from disk. -/
def download_images (fetchOk : String → String → Bool) (initFiles : List String)
    (initMap : List (String × String)) (recipes : List Recipe) : St × List Recipe :=
  processAll fetchOk 1
    { files := initFiles, imageMap := initMap,
      downloaded := 0, updated := 0, skipped := 0, failed := 0 } recipes

/-! Embedding of `generate_site.py` (ASCII model: Python's `\w`, `\s`, `\d`
classes and `str.lower` are taken on their ASCII meaning). -/

/-- Python `\s` over ASCII: space, tab, newline, carriage return, vertical
tab, form feed. -/
def isPySpace (c : Char) : Bool :=
  decide (c.toNat = 32 ∨ c.toNat = 9 ∨ c.toNat = 10 ∨ c.toNat = 13 ∨
    c.toNat = 11 ∨ c.toNat = 12)

/-- Python `\w` over ASCII: `A-Z`, `a-z`, `0-9`, `_`. -/
def isWordChar (c : Char) : Bool :=
  decide ((65 ≤ c.toNat ∧ c.toNat ≤ 90) ∨ (97 ≤ c.toNat ∧ c.toNat ≤ 122) ∨
    (48 ≤ c.toNat ∧ c.toNat ≤ 57) ∨ c.toNat = 95)

/-- The hyphen character, via its code point. -/
def isDashChar (c : Char) : Bool := decide (c.toNat = 45)

/-- The class kept by `re.sub(r'[^\w\s-]', '', text)` in `slugify`. -/
def slugKeep (c : Char) : Bool := isWordChar c || isPySpace c || isDashChar c

/-- The class `[-\s]` collapsed by `re.sub(r'[-\s]+', '-', text)`. -/
def isDashSpace (c : Char) : Bool := isDashChar c || isPySpace c

/-- `re.sub(r'[-\s]+', '-', text)`: each maximal run of `[-\s]` characters
becomes a single hyphen. The flag records being inside such a run. -/
def collapseAux : Bool → List Char → List Char
  | _, [] => []
  | inRun, c :: cs =>
    if isDashSpace c then
      if inRun then collapseAux true cs else '-' :: collapseAux true cs
    else c :: collapseAux false cs

/-- `re.sub(r'[-\s]+', '-', text)` from the start of the string. -/
def collapseDashes (s : List Char) : List Char := collapseAux false s

/-- Python `str.strip`: drop characters satisfying `p` from both ends. -/
def pyStrip (p : Char → Bool) (s : List Char) : List Char :=
  (s.dropWhile p).rdropWhile p

/-- `slugify` (`generate_site.py` lines 16-21): lowercase, drop characters
outside `[\w\s-]`, collapse `[-\s]+` runs to one hyphen, strip hyphens at
the ends. -/
def slugify (s : List Char) : List Char :=
  pyStrip isDashChar (collapseDashes ((s.map Char.toLower).filter slugKeep))

/-- A character that can appear in a finished slug: a lowercase-fixed word
character or a hyphen. -/
def SlugChar (c : Char) : Prop :=
  (isWordChar c = true ∧ c.toLower = c) ∨ c = '-'

/-- Adjacent characters are never both in the collapsed `[-\s]` class. -/
def noDashSpacePair (a b : Char) : Prop :=
  ¬(isDashSpace a = true ∧ isDashSpace b = true)

/-- The shape of `slugify` output: slug characters only, no two adjacent
dash/space characters, no hyphen at either end. -/
def GoodSlug (l : List Char) : Prop :=
  (∀ c ∈ l, SlugChar c) ∧
  List.Chain' noDashSpacePair l ∧
  (∀ c, l.head? = some c → isDashChar c = false) ∧
  (∀ c, l.reverse.head? = some c → isDashChar c = false)

/-- Python `sep.join(parts)`. -/
def joinSep (sep : List Char) : List (List Char) → List Char
  | [] => []
  | [x] => x
  | x :: xs => x ++ sep ++ joinSep sep xs

/-- One optional regex group `(?:(\d+)X)?` matched greedily at the front of
`s`: a non-empty digit run directly followed by the literal `suffix`
captures the digits and consumes through the literal; otherwise the group
captures nothing and consumes nothing. -/
def matchGroup (suffix : Char) (s : List Char) : Option (List Char) × List Char :=
  let ds := s.takeWhile Char.isDigit
  let rest := s.dropWhile Char.isDigit
  if ds ≠ [] ∧ rest.head? = some suffix then (some ds, rest.tail) else (none, s)

/-- `parse_duration` (`generate_site.py` lines 47-66): empty string → empty;
`re.match(r'PT(?:(\d+)H)?(?:(\d+)M)?', s)` needs the literal prefix `PT`, a
failed match returns the input unchanged; otherwise the captured groups are
rendered as `"{hours}h"` and `"{minutes}m"` joined by a space, and an empty
parts list renders as the empty string. -/
def parse_duration (s : List Char) : List Char :=
  if s = [] then []
  else
    match s with
    | 'P' :: 'T' :: rest =>
      let hg := matchGroup 'H' rest
      let mg := matchGroup 'M' hg.2
      let parts :=
        (match hg.1 with | some h => [h ++ ['h']] | none => []) ++
        (match mg.1 with | some m => [m ++ ['m']] | none => [])
      if parts = [] then [] else joinSep (' ' :: []) parts
    | _ => s

/-- Sentence terminators `.`, `!`, `?` via code points 46, 33, 63. -/
def isTermChar (c : Char) : Bool := decide (c.toNat = 46 ∨ c.toNat = 33 ∨ c.toNat = 63)

/-- `re.search(r'^[^.!?]+[.!?]', text)`: a non-empty run of non-terminators
followed by the first terminator; no match when the text starts with a
terminator or contains none. -/
def sentence_match (s : List Char) : Option (List Char) :=
  match s.takeWhile (fun c => !isTermChar c), s.dropWhile (fun c => !isTermChar c) with
  | [], _ => none
  | _, [] => none
  | pre, t :: _ => some (pre ++ [t])

/-- Python `str.split()` with no argument: split on runs of whitespace,
discarding empty pieces. `cur` accumulates the current word reversed. -/
def splitAux (cur : List Char) : List Char → List (List Char)
  | [] => if cur = [] then [] else [cur.reverse]
  | c :: cs =>
    if isPySpace c then
      if cur = [] then splitAux [] cs else cur.reverse :: splitAux [] cs
    else splitAux (c :: cur) cs

/-- Python `text.split()`. -/
def pySplit (s : List Char) : List (List Char) := splitAux [] s

/-- `truncate_description` (`generate_site.py` lines 23-45): empty → empty;
else if the anchored first-sentence match exists and its stripped form has
at most `maxWords` words, return that; else if the text has more than
`maxWords` words, join the first `maxWords` words with spaces and append
`...`; else return the text unchanged. -/
def truncate_description (text : List Char) (maxWords : Nat := 20) : List Char :=
  if text = [] then []
  else
    let words := pySplit text
    let hard :=
      if maxWords < words.length then
        joinSep (' ' :: []) (words.take maxWords) ++ ('.' :: '.' :: '.' :: [])
      else text
    match sentence_match text with
    | some m =>
      let fs := pyStrip isPySpace m
      if (pySplit fs).length ≤ maxWords then fs else hard
    | none => hard

/-- Errors a site-generation step can raise; `open` on a missing path raises
a file-not-found error. -/
inductive PageError where
  | fileNotFound : String → PageError
deriving DecidableEq

/-- `copy_about_page` (`generate_site.py` lines 617-625): if
`templates/about.html` exists it is copied (`ok true`); otherwise the
function prints a warning and skips the page (`ok false`). No code path
raises. -/
def copy_about_page (fsExists : String → Bool) : Except PageError Bool :=
  if fsExists "templates/about.html" then Except.ok true else Except.ok false

/-- `open(recipes_file, 'r')` in `generate_site` (line 653): raises
file-not-found when the recipes file is absent; this error is not caught. -/
def load_recipes (fsExists : String → Bool) (recipesFile : String)
    (recipes : List Recipe) : Except PageError (List Recipe) :=
  if fsExists recipesFile then Except.ok recipes
  else Except.error (PageError.fileNotFound recipesFile)

/-- `recipe.get('name', 'Untitled Recipe')` in `generate_recipe_page`
(line 74): a missing optional field silently defaults. -/
def recipeDisplayName (r : Recipe) : String := r.name.getD "Untitled Recipe"

/-- C1: for every combination of file existence, manifest membership and URL
equality, the skip/download outcome and the reason computed by the code
(`needs_download`, lines 58-68) equal those of the spec's ordered rule
(file missing → new; not tracked; URL changed; else skip). -/
theorem C1_decision_rule_matches_spec :
    ∀ (fileExists : Bool) (tracked : Option String) (imageUrl : String),
      needs_download fileExists tracked imageUrl = spec_decision fileExists tracked imageUrl := by
  intro fe tr url
  cases fe <;> cases tr <;> simp [needs_download, spec_decision]

/-- C5: a recipe with an empty (or absent) image list is counted as skipped
and nothing else changes: no download is attempted, the manifest and file
list are untouched, and the recipe (in particular `localImage`) is returned
unchanged. -/
theorem C5_empty_image_skipped (fetchOk : String → String → Bool) (i : Nat) (st : St)
    (r : Recipe) (h : r.image = []) :
    processRecipe fetchOk i st r = ({ st with skipped := st.skipped + 1 }, r) := by
  unfold processRecipe
  rw [h]

/-- Witness for C5 at a concrete recipe with no image. -/
theorem C5_empty_image_skipped_witness :
    (Recipe.mk (some "r1") (some "Soup") [] none).image = [] ∧
    processRecipe (fun _ _ => true) 1 (St.mk [] [] 0 0 0 0)
        (Recipe.mk (some "r1") (some "Soup") [] none)
      = (St.mk [] [] 0 0 1 0, Recipe.mk (some "r1") (some "Soup") [] none) :=
  ⟨rfl, C5_empty_image_skipped (fun _ _ => true) 1 (St.mk [] [] 0 0 0 0)
    (Recipe.mk (some "r1") (some "Soup") [] none) rfl⟩

/-- The loop never aborts: every input recipe yields an output recipe,
whatever the fetch outcomes. -/
theorem processAll_length (fetchOk : String → String → Bool) (rs : List Recipe) :
    ∀ (j : Nat) (st : St), ((processAll fetchOk j st rs).2).length = rs.length := by
  induction rs with
  | nil => intro j st; rfl
  | cons r rs ih =>
    intro j st
    simp only [processAll, List.length_cons]
    rw [ih]

/-- C3: when a fetch is attempted (some download reason holds) and fails, the
iteration increments `failed`, leaves the manifest and the file list
unchanged, and returns the recipe unchanged (so `localImage` is not set);
and the loop processes every recipe regardless, so no failure aborts the
batch. -/
theorem C3_fetch_failure_isolated
    (fetchOk : String → String → Bool) (i : Nat) (st : St) (r : Recipe)
    (imageUrl : String) (rest : List String) (reason : Reason)
    (him : r.image = imageUrl :: rest)
    (hneed : needs_download (st.files.contains (effId i r ++ imageExt imageUrl))
        (lookupMap st.imageMap (effId i r)) imageUrl = some reason)
    (hfail : fetchOk (effId i r) imageUrl = false) :
    (processRecipe fetchOk i st r).1.failed = st.failed + 1 ∧
    (processRecipe fetchOk i st r).1.imageMap = st.imageMap ∧
    (processRecipe fetchOk i st r).1.files = st.files ∧
    (processRecipe fetchOk i st r).2 = r ∧
    (∀ (rs : List Recipe) (j : Nat) (st' : St),
      ((processAll fetchOk j st' rs).2).length = rs.length) := by
  unfold processRecipe
  rw [him]
  simp only [hneed, hfail]
  by_cases hr : reason = Reason.urlChanged <;>
    simp [hr, processAll_length]

/-- Witness for C3: one recipe whose (attempted) fetch fails in a batch of
two; the counters, manifest, files and recipe are as the theorem states and
both recipes are still processed. -/
theorem C3_fetch_failure_isolated_witness :
    (processRecipe (fun _ _ => false) 1 (St.mk [] [] 0 0 0 0)
        (Recipe.mk (some "r1") none ["http://x/a.png"] none)).1.failed = 0 + 1 ∧
    (processRecipe (fun _ _ => false) 1 (St.mk [] [] 0 0 0 0)
        (Recipe.mk (some "r1") none ["http://x/a.png"] none)).1.imageMap = [] ∧
    (processRecipe (fun _ _ => false) 1 (St.mk [] [] 0 0 0 0)
        (Recipe.mk (some "r1") none ["http://x/a.png"] none)).2
      = Recipe.mk (some "r1") none ["http://x/a.png"] none ∧
    ((processAll (fun _ _ => false) 1 (St.mk [] [] 0 0 0 0)
        [Recipe.mk (some "r1") none ["http://x/a.png"] none,
         Recipe.mk (some "r2") none ["http://x/b.png"] none]).2).length = 2 := by
  have h := C3_fetch_failure_isolated (fun _ _ => false) 1 (St.mk [] [] 0 0 0 0)
    (Recipe.mk (some "r1") none ["http://x/a.png"] none)
    "http://x/a.png" [] Reason.newImage rfl (by decide) rfl
  exact ⟨h.1, h.2.1, h.2.2.2.1, h.2.2.2.2 _ 1 _⟩

/-- Helper: `localImage` gets assigned whenever the iteration does not end in
a fetch failure (shared by the theorems about `localImage`). -/
theorem processRecipe_sets_localImage
    (fetchOk : String → String → Bool) (i : Nat) (st : St) (r : Recipe)
    (imageUrl : String) (rest : List String)
    (him : r.image = imageUrl :: rest)
    (h : needs_download (st.files.contains (effId i r ++ imageExt imageUrl))
          (lookupMap st.imageMap (effId i r)) imageUrl = none
        ∨ fetchOk (effId i r) imageUrl = true) :
    (processRecipe fetchOk i st r).2.localImage
      = some ("images/" ++ (effId i r ++ imageExt imageUrl)) := by
  unfold processRecipe
  rw [him]
  rcases hnd : needs_download (st.files.contains (effId i r ++ imageExt imageUrl))
      (lookupMap st.imageMap (effId i r)) imageUrl with _ | reason
  · simp only [hnd]
  · rcases h with h | h
    · rw [hnd] at h; cases h
    · simp only [hnd]
      simp [h]

/-- C10: `localImage` is set to `images/{filename}` for every recipe with a
non-empty image list whose iteration does not end in a fetch error — the
skip path (`needs_download` returns `none`) sets it too, so the assignment is
not limited to recipes actually downloaded in this run. -/
theorem C10_localImage_set_even_when_skipped
    (fetchOk : String → String → Bool) (i : Nat) (st : St) (r : Recipe)
    (imageUrl : String) (rest : List String)
    (him : r.image = imageUrl :: rest)
    (h : needs_download (st.files.contains (effId i r ++ imageExt imageUrl))
          (lookupMap st.imageMap (effId i r)) imageUrl = none
        ∨ fetchOk (effId i r) imageUrl = true) :
    (processRecipe fetchOk i st r).2.localImage
      = some ("images/" ++ (effId i r ++ imageExt imageUrl)) :=
  processRecipe_sets_localImage fetchOk i st r imageUrl rest him h

/-- Witness for C10: a recipe that is skipped (file present, manifest URL
matches) still gains `localImage`, even under a fetch oracle that always
fails. -/
theorem C10_localImage_set_even_when_skipped_witness :
    (processRecipe (fun _ _ => false) 1
        (St.mk ["r1.png"] [("r1", "http://x/a.png")] 0 0 0 0)
        (Recipe.mk (some "r1") none ["http://x/a.png"] none)).2.localImage
      = some ("images/" ++ (effId 1 (Recipe.mk (some "r1") none ["http://x/a.png"] none)
          ++ imageExt "http://x/a.png")) :=
  C10_localImage_set_even_when_skipped (fun _ _ => false) 1
    (St.mk ["r1.png"] [("r1", "http://x/a.png")] 0 0 0 0)
    (Recipe.mk (some "r1") none ["http://x/a.png"] none)
    "http://x/a.png" [] rfl (Or.inl (by decide))

/-- C6: the local filename is the recipe identifier concatenated with the
extension taken from the URL path's suffix, defaulting to `.jpg` when the
path has none (visible in the `localImage` the iteration assigns); and the
spec's worked example — recipe `r1` named "Pea Soup" with image
`http://x/img.png`, no existing file, empty manifest, all fetches
succeeding — downloads to `images/r1.png`, leaves the manifest as
`{"r1": "http://x/img.png"}` and sets `localImage` to `images/r1.png`. -/
theorem C6_filename_derivation_and_example
    (fetchOk : String → String → Bool) (i : Nat) (st : St) (r : Recipe)
    (imageUrl : String) (rest : List String) (rid : String)
    (hid : r.identifier = some rid)
    (him : r.image = imageUrl :: rest)
    (hfetch : fetchOk rid imageUrl = true) :
    ((processRecipe fetchOk i st r).2.localImage
      = some ("images/" ++ (rid ++
          (if extOfUrl imageUrl = "" then ".jpg" else extOfUrl imageUrl)))) ∧
    download_images (fun _ _ => true) [] []
        [Recipe.mk (some "r1") (some "Pea Soup") ["http://x/img.png"] none]
      = (St.mk ["r1.png"] [("r1", "http://x/img.png")] 1 0 0 0,
         [Recipe.mk (some "r1") (some "Pea Soup") ["http://x/img.png"]
           (some "images/r1.png")]) := by
  constructor
  · have hrid : effId i r = rid := by simp [effId, hid]
    have : (processRecipe fetchOk i st r).2.localImage
        = some ("images/" ++ (effId i r ++ imageExt imageUrl)) := by
      apply processRecipe_sets_localImage fetchOk i st r imageUrl rest him
      rw [hrid]; exact Or.inr hfetch
    rw [this, hrid, imageExt]
  · decide

/-- Witness for C6 at the spec's example recipe itself. -/
theorem C6_filename_derivation_and_example_witness :
    (processRecipe (fun _ _ => true) 1 (St.mk [] [] 0 0 0 0)
        (Recipe.mk (some "r1") (some "Pea Soup") ["http://x/img.png"] none)).2.localImage
      = some ("images/" ++ ("r1" ++
          (if extOfUrl "http://x/img.png" = "" then ".jpg" else extOfUrl "http://x/img.png"))) :=
  (C6_filename_derivation_and_example (fun _ _ => true) 1 (St.mk [] [] 0 0 0 0)
    (Recipe.mk (some "r1") (some "Pea Soup") ["http://x/img.png"] none)
    "http://x/img.png" [] "r1" rfl rfl rfl).1

/-- Helper: looking up the key just written into the manifest. -/
theorem lookupMap_setMap_self (m : List (String × String)) (k v : String) :
    lookupMap (setMap m k v) k = some v := by
  induction m with
  | nil => simp [setMap, lookupMap]
  | cons p t ih =>
    rcases p with ⟨a, b⟩
    by_cases h : a = k <;> simp [setMap, lookupMap, h, ih]

/-- Helper: writing one manifest key does not disturb another key. -/
theorem lookupMap_setMap_ne (m : List (String × String)) (k v k' : String) (h : k ≠ k') :
    lookupMap (setMap m k v) k' = lookupMap m k' := by
  induction m with
  | nil => simp [setMap, lookupMap, h]
  | cons p t ih =>
    rcases p with ⟨a, b⟩
    by_cases ha : a = k <;> simp [setMap, lookupMap, ha, h, ih]

/-- Helper: the skip outcome forces an existing file and a matching manifest
entry. -/
theorem needs_download_none (fe : Bool) (tr : Option String) (url : String)
    (h : needs_download fe tr url = none) : fe = true ∧ tr = some url := by
  cases fe <;> cases tr <;> simp_all [needs_download]

/-- Helper: the failure counter never decreases across one iteration. -/
theorem processRecipe_failed_mono (f : String → String → Bool) (i : Nat) (st : St)
    (r : Recipe) : st.failed ≤ (processRecipe f i st r).1.failed := by
  unfold processRecipe
  rcases him : r.image with _ | ⟨url, rest⟩
  · simp
  · rcases hnd : needs_download (st.files.contains (effId i r ++ imageExt url))
        (lookupMap st.imageMap (effId i r)) url with _ | reason
    · simp only [hnd]
      exact Nat.le_refl _
    · simp only [hnd]
      by_cases hf : f (effId i r) url = true <;>
        by_cases hr : reason = Reason.urlChanged <;> simp [hf, hr]

/-- Helper: the failure counter never decreases across the loop. -/
theorem processAll_failed_mono (f : String → String → Bool) (rs : List Recipe) :
    ∀ (i : Nat) (st : St), st.failed ≤ (processAll f i st rs).1.failed := by
  induction rs with
  | nil => intro i st; exact Nat.le_refl _
  | cons r rs ih =>
    intro i st
    calc st.failed ≤ (processRecipe f i st r).1.failed := processRecipe_failed_mono f i st r
      _ ≤ (processAll f (i + 1) (processRecipe f i st r).1 rs).1.failed := ih (i + 1) _
      _ = (processAll f i st (r :: rs)).1.failed := rfl

/-- Helper: an iteration that does not bump the failure counter leaves the
manifest mapping the recipe's id to its first image URL (whether it
downloaded or skipped). -/
theorem processRecipe_manifest_self (f : String → String → Bool) (i : Nat) (st : St)
    (r : Recipe) (url : String) (tl : List String)
    (him : r.image = url :: tl)
    (hnf : (processRecipe f i st r).1.failed = st.failed) :
    lookupMap (processRecipe f i st r).1.imageMap (effId i r) = some url := by
  unfold processRecipe at hnf ⊢
  rw [him] at hnf ⊢
  rcases hnd : needs_download (st.files.contains (effId i r ++ imageExt url))
      (lookupMap st.imageMap (effId i r)) url with _ | reason
  · simp only [hnd]
    exact (needs_download_none _ _ _ hnd).2
  · simp only [hnd] at hnf ⊢
    by_cases hf : f (effId i r) url = true
    · by_cases hr : reason = Reason.urlChanged <;>
        simp [hf, hr, lookupMap_setMap_self]
    · exfalso
      by_cases hr : reason = Reason.urlChanged <;> simp [hf, hr] at hnf

/-- Helper: an iteration never disturbs the manifest at a different key. -/
theorem processRecipe_manifest_preserved (f : String → String → Bool) (i : Nat) (st : St)
    (r : Recipe) (k : String) (hk : k ≠ effId i r) :
    lookupMap (processRecipe f i st r).1.imageMap k = lookupMap st.imageMap k := by
  unfold processRecipe
  rcases him : r.image with _ | ⟨url, rest⟩
  · simp
  · rcases hnd : needs_download (st.files.contains (effId i r ++ imageExt url))
        (lookupMap st.imageMap (effId i r)) url with _ | reason
    · simp only [hnd]
    · simp only [hnd]
      by_cases hf : f (effId i r) url = true <;>
        by_cases hr : reason = Reason.urlChanged <;>
          simp [hf, hr, lookupMap_setMap_ne _ _ _ _ (Ne.symm hk)]

/-- Helper: the loop never disturbs the manifest at a key distinct from every
effective recipe id it processes. -/
theorem processAll_manifest_preserved (f : String → String → Bool) (rs : List Recipe) :
    ∀ (i : Nat) (st : St) (k : String),
      (∀ (j : Nat) (hj : j < rs.length), k ≠ effId (i + j) (rs.get ⟨j, hj⟩)) →
      lookupMap (processAll f i st rs).1.imageMap k = lookupMap st.imageMap k := by
  induction rs with
  | nil => intro i st k _; rfl
  | cons r rs ih =>
    intro i st k hk
    have h0 : k ≠ effId i r := by
      have h := hk 0 (by simp)
      simpa using h
    have hrest : ∀ (j : Nat) (hj : j < rs.length),
        k ≠ effId ((i + 1) + j) (rs.get ⟨j, hj⟩) := by
      intro j hj
      have h := hk (j + 1) (by simp [List.length_cons]; omega)
      have e : (i + 1) + j = i + (j + 1) := by omega
      rw [e]
      exact h
    calc lookupMap (processAll f i st (r :: rs)).1.imageMap k
        = lookupMap (processAll f (i + 1) (processRecipe f i st r).1 rs).1.imageMap k := rfl
      _ = lookupMap (processRecipe f i st r).1.imageMap k := ih (i + 1) _ k hrest
      _ = lookupMap st.imageMap k := processRecipe_manifest_preserved f i st r k h0

/-- Helper: the manifest invariant for the loop: if the whole run bumped no
failure counter and the effective recipe ids are pairwise distinct, the final
manifest maps each id of a recipe with a non-empty image list to that
recipe's first image URL. -/
theorem processAll_manifest_invariant (f : String → String → Bool) (rs : List Recipe) :
    ∀ (i : Nat) (st : St),
      (processAll f i st rs).1.failed = st.failed →
      (∀ (j : Nat) (hj : j < rs.length) (k : Nat) (hk : k < rs.length), j ≠ k →
          effId (i + j) (rs.get ⟨j, hj⟩) ≠ effId (i + k) (rs.get ⟨k, hk⟩)) →
      ∀ (j : Nat) (hj : j < rs.length) (url : String) (tl : List String),
        (rs.get ⟨j, hj⟩).image = url :: tl →
        lookupMap (processAll f i st rs).1.imageMap (effId (i + j) (rs.get ⟨j, hj⟩))
          = some url := by
  induction rs with
  | nil =>
    intro i st _ _ j hj
    exact absurd hj (by simp)
  | cons r rs ih =>
    intro i st hfail hdist j hj url tl him
    have hcons : (processAll f i st (r :: rs)).1
        = (processAll f (i + 1) (processRecipe f i st r).1 rs).1 := rfl
    have hst1 : (processRecipe f i st r).1.failed = st.failed := by
      have h1 := processRecipe_failed_mono f i st r
      have h2 := processAll_failed_mono f rs (i + 1) (processRecipe f i st r).1
      rw [hcons] at hfail
      omega
    have hfinal : (processAll f (i + 1) (processRecipe f i st r).1 rs).1.failed
        = (processRecipe f i st r).1.failed := by
      rw [hcons] at hfail
      omega
    rcases j with _ | j
    · have hself := processRecipe_manifest_self f i st r url tl him hst1
      have hpres : lookupMap
          (processAll f (i + 1) (processRecipe f i st r).1 rs).1.imageMap (effId i r)
          = lookupMap (processRecipe f i st r).1.imageMap (effId i r) := by
        apply processAll_manifest_preserved
        intro j' hj'
        have h := hdist 0 (by simp) (j' + 1) (by simp [List.length_cons]; omega) (by omega)
        have e : (i + 1) + j' = i + (j' + 1) := by omega
        rw [e]
        have e0 : i + 0 = i := by omega
        rw [e0] at h
        exact h
      show lookupMap
          (processAll f (i + 1) (processRecipe f i st r).1 rs).1.imageMap (effId i r)
          = some url
      exact hpres.trans hself
    · have hj' : j < rs.length := by
        have := hj
        simp [List.length_cons] at this
        omega
      have hdist' : ∀ (a : Nat) (ha : a < rs.length) (b : Nat) (hb : b < rs.length),
          a ≠ b →
          effId ((i + 1) + a) (rs.get ⟨a, ha⟩) ≠ effId ((i + 1) + b) (rs.get ⟨b, hb⟩) := by
        intro a ha b hb hab
        have h := hdist (a + 1) (by simp [List.length_cons]; omega)
          (b + 1) (by simp [List.length_cons]; omega) (by omega)
        have ea : (i + 1) + a = i + (a + 1) := by omega
        have eb : (i + 1) + b = i + (b + 1) := by omega
        rw [ea, eb]
        exact h
      have hih := ih (i + 1) (processRecipe f i st r).1 hfinal hdist' j hj' url tl him
      have harith : i + (j + 1) = (i + 1) + j := by omega
      rw [hcons, harith]
      exact hih

/-- C2: after a run of `download_images` in which every attempted fetch
succeeded (equivalently: the failure counter, which is bumped exactly when an
attempted fetch raises, ends at 0), with all effective recipe identifiers
pairwise distinct, the final manifest maps the identifier of each recipe with
a non-empty image list to that recipe's first image URL. -/
theorem C2_manifest_invariant_after_clean_run (f : String → String → Bool)
    (initFiles : List String) (initMap : List (String × String)) (rs : List Recipe)
    (hdist : ∀ (j : Nat) (hj : j < rs.length) (k : Nat) (hk : k < rs.length), j ≠ k →
        effId (1 + j) (rs.get ⟨j, hj⟩) ≠ effId (1 + k) (rs.get ⟨k, hk⟩))
    (hok : (download_images f initFiles initMap rs).1.failed = 0) :
    ∀ (j : Nat) (hj : j < rs.length) (url : String) (tl : List String),
      (rs.get ⟨j, hj⟩).image = url :: tl →
      lookupMap (download_images f initFiles initMap rs).1.imageMap
        (effId (1 + j) (rs.get ⟨j, hj⟩)) = some url := by
  exact processAll_manifest_invariant f rs 1
    { files := initFiles, imageMap := initMap,
      downloaded := 0, updated := 0, skipped := 0, failed := 0 } hok hdist

/-- Witness for C2: two distinct recipes, all fetches succeeding; the final
manifest maps the first recipe's id to its image URL. -/
theorem C2_manifest_invariant_after_clean_run_witness :
    lookupMap (download_images (fun _ _ => true) [] []
        [Recipe.mk (some "r1") none ["http://x/a.png"] none,
         Recipe.mk (some "r2") none ["http://x/b.png"] none]).1.imageMap
      (effId (1 + 0) (Recipe.mk (some "r1") none ["http://x/a.png"] none))
      = some "http://x/a.png" := by
  exact C2_manifest_invariant_after_clean_run (fun _ _ => true) [] []
    [Recipe.mk (some "r1") none ["http://x/a.png"] none,
     Recipe.mk (some "r2") none ["http://x/b.png"] none]
    (by decide) (by decide) 0 (by decide) "http://x/a.png" [] rfl

/-- Helper: `takeWhile`/`dropWhile` split a list at the first element
falsifying the predicate. -/
theorem takeWhile_dropWhile_append (p : Char → Bool) (xs : List Char) (y : Char)
    (ys : List Char) (hxs : ∀ c ∈ xs, p c = true) (hy : p y = false) :
    (xs ++ y :: ys).takeWhile p = xs ∧ (xs ++ y :: ys).dropWhile p = y :: ys := by
  induction xs with
  | nil => simp [List.takeWhile_cons, List.dropWhile_cons, hy]
  | cons a as ih =>
    have ha : p a = true := hxs a (by simp)
    have h' : ∀ c ∈ as, p c = true := fun c hc => hxs c (by simp [hc])
    simp [List.takeWhile_cons, List.dropWhile_cons, ha, ih h']

/-- Helper: a regex group `(?:(\d+)X)?` captures a leading digit run followed
by its literal. -/
theorem matchGroup_captures (suffix : Char) (ds rest : List Char)
    (hds : ∀ c ∈ ds, c.isDigit = true) (hne : ds ≠ [])
    (hsuf : suffix.isDigit = false) :
    matchGroup suffix (ds ++ suffix :: rest) = (some ds, rest) := by
  obtain ⟨ht, hd⟩ := takeWhile_dropWhile_append Char.isDigit ds suffix rest hds hsuf
  unfold matchGroup
  rw [ht, hd]
  simp [hne]

/-- Helper: a regex group `(?:(\d+)X)?` captures nothing when the character
after the digit run is not its literal. -/
theorem matchGroup_skips (suffix y : Char) (ds rest : List Char)
    (hds : ∀ c ∈ ds, c.isDigit = true) (hy : y.isDigit = false) (hne : y ≠ suffix) :
    matchGroup suffix (ds ++ y :: rest) = (none, ds ++ y :: rest) := by
  obtain ⟨ht, hd⟩ := takeWhile_dropWhile_append Char.isDigit ds y rest hds hy
  unfold matchGroup
  rw [ht, hd]
  simp [hne]

/-- C8 counterexample: `"1 hour"` is non-empty and not in the `PT#H#M`
subset (it does not even start with `PT`), yet `parse_duration` returns it
unchanged — contradicting "an unparseable duration passes through unchanged
only if it is already empty". -/
theorem C8_counterexample_nonempty_passthrough :
    ('1' :: ' ' :: 'h' :: 'o' :: 'u' :: 'r' :: []) ≠ ([] : List Char) ∧
    ('1' :: ' ' :: 'h' :: 'o' :: 'u' :: 'r' :: []).take 2 ≠ ('P' :: 'T' :: []) ∧
    parse_duration ('1' :: ' ' :: 'h' :: 'o' :: 'u' :: 'r' :: [])
      = ('1' :: ' ' :: 'h' :: 'o' :: 'u' :: 'r' :: []) := by
  refine ⟨by decide, by decide, ?_⟩
  decide

/-- C8 (amended): durations in the `PT#H#M` subset (both groups, hours only,
minutes only) convert to `#h #m`; the empty string maps to itself; a
non-empty string not starting with `PT` is returned unchanged; and a string
starting with `PT` whose remainder yields neither group returns the empty
string. -/
theorem C8_duration_conversion
    (h m : List Char) (s rest : List Char)
    (hh : h ≠ []) (hm : m ≠ [])
    (hhd : ∀ c ∈ h, c.isDigit = true) (hmd : ∀ c ∈ m, c.isDigit = true)
    (hs : s ≠ []) (hpt : s.take 2 ≠ ('P' :: 'T' :: []))
    (hH : matchGroup 'H' rest = (none, rest))
    (hM : matchGroup 'M' rest = (none, rest)) :
    parse_duration ('P' :: 'T' :: (h ++ 'H' :: (m ++ 'M' :: [])))
        = h ++ 'h' :: ' ' :: (m ++ 'm' :: []) ∧
    parse_duration ('P' :: 'T' :: (h ++ 'H' :: [])) = h ++ 'h' :: [] ∧
    parse_duration ('P' :: 'T' :: (m ++ 'M' :: [])) = m ++ 'm' :: [] ∧
    parse_duration [] = [] ∧
    parse_duration s = s ∧
    parse_duration ('P' :: 'T' :: rest) = [] := by
  refine ⟨?_, ?_, ?_, rfl, ?_, ?_⟩
  · have h1 : matchGroup 'H' (h ++ 'H' :: (m ++ 'M' :: []))
        = (some h, m ++ 'M' :: []) := matchGroup_captures 'H' h _ hhd hh (by decide)
    have h2 : matchGroup 'M' (m ++ 'M' :: []) = (some m, []) :=
      matchGroup_captures 'M' m [] hmd hm (by decide)
    simp [parse_duration, h1, h2, joinSep]
  · have h1 : matchGroup 'H' (h ++ 'H' :: []) = (some h, []) :=
      matchGroup_captures 'H' h [] hhd hh (by decide)
    have h2 : matchGroup 'M' ([] : List Char) = (none, []) := rfl
    simp [parse_duration, h1, h2, joinSep]
  · have h1 : matchGroup 'H' (m ++ 'M' :: []) = (none, m ++ 'M' :: []) :=
      matchGroup_skips 'H' 'M' m [] hmd (by decide) (by decide)
    have h2 : matchGroup 'M' (m ++ 'M' :: []) = (some m, []) :=
      matchGroup_captures 'M' m [] hmd hm (by decide)
    simp [parse_duration, h1, h2, joinSep]
  · unfold parse_duration
    rw [if_neg hs]
    split
    · simp at hpt
    · rfl
  · simp [parse_duration, hH, hM]

/-- Witness for C8 at `PT1H30M`, `PT2H`, `PT45M`, `"1 hour"` and `PT30S`. -/
theorem C8_duration_conversion_witness :
    parse_duration ('P' :: 'T' :: '1' :: 'H' :: '3' :: '0' :: 'M' :: [])
        = ('1' :: 'h' :: ' ' :: '3' :: '0' :: 'm' :: []) ∧
    parse_duration ('P' :: 'T' :: '2' :: 'H' :: []) = ('2' :: 'h' :: []) ∧
    parse_duration ('P' :: 'T' :: '4' :: '5' :: 'M' :: []) = ('4' :: '5' :: 'm' :: []) ∧
    parse_duration ('1' :: ' ' :: 'h' :: 'o' :: 'u' :: 'r' :: [])
        = ('1' :: ' ' :: 'h' :: 'o' :: 'u' :: 'r' :: []) ∧
    parse_duration ('P' :: 'T' :: '3' :: '0' :: 'S' :: []) = [] := by
  have h := C8_duration_conversion ('1' :: []) ('3' :: '0' :: [])
    ('1' :: ' ' :: 'h' :: 'o' :: 'u' :: 'r' :: []) ('3' :: '0' :: 'S' :: [])
    (by decide) (by decide) (by decide) (by decide) (by decide) (by decide)
    (by decide) (by decide)
  have h2 := C8_duration_conversion ('2' :: []) ('4' :: '5' :: [])
    ('x' :: []) [] (by decide) (by decide) (by decide) (by decide)
    (by decide) (by decide) (by decide) (by decide)
  exact ⟨h.1, h2.2.1, h2.2.2.1, h.2.2.2.2.1, h.2.2.2.2.2⟩

/-- C9: description truncation. The empty string maps to itself; a non-empty
text whose (stripped) anchored first sentence has at most 20 words returns
that sentence; otherwise a text of more than 20 words returns its first 20
words joined by spaces plus `...`; and a text of at most 20 words with no
qualifying first sentence (no match, or a match longer than 20 words) is
returned unchanged. "First sentence" is the code's anchored
`^[^.!?]+[.!?]` match, stripped of surrounding whitespace as `.strip()`
does. -/
theorem C9_truncate_first_sentence_or_20_words (text m : List Char) :
    truncate_description [] = [] ∧
    (text ≠ [] → sentence_match text = some m →
      (pySplit (pyStrip isPySpace m)).length ≤ 20 →
      truncate_description text = pyStrip isPySpace m) ∧
    (text ≠ [] →
      (sentence_match text = none ∨
        (sentence_match text = some m ∧ 20 < (pySplit (pyStrip isPySpace m)).length)) →
      20 < (pySplit text).length →
      truncate_description text
        = joinSep (' ' :: []) ((pySplit text).take 20) ++ ('.' :: '.' :: '.' :: [])) ∧
    (text ≠ [] →
      (sentence_match text = none ∨
        (sentence_match text = some m ∧ 20 < (pySplit (pyStrip isPySpace m)).length)) →
      (pySplit text).length ≤ 20 →
      truncate_description text = text) := by
  refine ⟨rfl, ?_, ?_, ?_⟩
  · intro hne hsm hlen
    simp [truncate_description, hne, hsm, hlen]
  · intro hne hsm hlen
    rcases hsm with hsm | ⟨hsm, hgt⟩
    · simp [truncate_description, hne, hsm, hlen]
    · simp [truncate_description, hne, hsm, hlen, Nat.not_le.mpr hgt]
  · intro hne hsm hlen
    rcases hsm with hsm | ⟨hsm, hgt⟩
    · simp [truncate_description, hne, hsm, Nat.not_lt.mpr hlen]
    · simp [truncate_description, hne, hsm, Nat.not_lt.mpr hlen, Nat.not_le.mpr hgt]

/-- Witness for C9: a first sentence of two words is returned stripped; a
two-word text without a qualifying sentence is returned unchanged. -/
theorem C9_truncate_first_sentence_or_20_words_witness :
    truncate_description
        (' ' :: 'H' :: 'i' :: ' ' :: 'o' :: 'k' :: '.' :: ' ' :: 'M' :: 'o' :: 'r' :: 'e' :: [])
      = ('H' :: 'i' :: ' ' :: 'o' :: 'k' :: '.' :: []) ∧
    truncate_description ('a' :: ' ' :: 'b' :: []) = ('a' :: ' ' :: 'b' :: []) := by
  have h1 := (C9_truncate_first_sentence_or_20_words
    (' ' :: 'H' :: 'i' :: ' ' :: 'o' :: 'k' :: '.' :: ' ' :: 'M' :: 'o' :: 'r' :: 'e' :: [])
    (' ' :: 'H' :: 'i' :: ' ' :: 'o' :: 'k' :: '.' :: [])).2.1
    (by decide) (by decide) (by decide)
  have h2 := (C9_truncate_first_sentence_or_20_words ('a' :: ' ' :: 'b' :: [])
    []).2.2.2 (by decide) (Or.inl (by decide)) (by decide)
  exact ⟨by rw [h1]; decide, h2⟩

/-- Helper: `Char.ofNat` of a valid code point reads back as that code
point. -/
theorem char_toNat_ofNat_valid (n : Nat) (h : n.isValidChar) :
    (Char.ofNat n).toNat = n := by
  simp [Char.ofNat, h, Char.ofNatAux, Char.toNat, UInt32.toNat, BitVec.toNat_ofNatLt]

/-- Helper: ASCII lowering is idempotent. -/
theorem toLower_idem (c : Char) : c.toLower.toLower = c.toLower := by
  unfold Char.toLower
  by_cases h : c.toNat ≥ 65 ∧ c.toNat ≤ 90
  · simp only [h, and_self, if_true]
    have hv : (c.toNat + 32).isValidChar := by
      unfold Nat.isValidChar
      left
      omega
    have ht : (Char.ofNat (c.toNat + 32)).toNat = c.toNat + 32 :=
      char_toNat_ofNat_valid _ hv
    rw [ht]
    have hne : ¬(c.toNat + 32 ≥ 65 ∧ c.toNat + 32 ≤ 90) := by omega
    rw [if_neg hne]
  · simp [h]

/-- Helper: a word character in the `[-\s]` class is impossible. -/
theorem word_not_dashspace (c : Char) (h : isWordChar c = true) :
    isDashSpace c = false := by
  simp [isWordChar] at h
  simp [isDashSpace, isDashChar, isPySpace]
  omega

/-- Helper: a kept character outside the `[-\s]` class is a word character. -/
theorem keep_not_dashspace_word (c : Char) (hk : slugKeep c = true)
    (hd : isDashSpace c = false) : isWordChar c = true := by
  simp [slugKeep, isDashSpace, isDashChar, isPySpace, isWordChar] at hk hd ⊢
  omega

/-- Helper: a map that fixes every element of a list fixes the list. -/
theorem map_fix_of_mem (f : Char → Char) (l : List Char)
    (h : ∀ c ∈ l, f c = c) : l.map f = l := by
  induction l with
  | nil => rfl
  | cons a t ih =>
    have ha : f a = a := h a (by simp)
    have ht : ∀ c ∈ t, f c = c := fun c hc => h c (by simp [hc])
    simp [ha, ih ht]

/-- Helper: a filter that keeps every element of a list fixes the list. -/
theorem filter_fix_of_mem (p : Char → Bool) (l : List Char)
    (h : ∀ c ∈ l, p c = true) : l.filter p = l := by
  induction l with
  | nil => rfl
  | cons a t ih =>
    have ha : p a = true := h a (by simp)
    have ht : ∀ c ∈ t, p c = true := fun c hc => h c (by simp [hc])
    simp [List.filter_cons, ha, ih ht]

/-- Helper: members of `dropWhile` are members of the list. -/
theorem mem_of_mem_dropWhile (p : Char → Bool) (l : List Char) (c : Char)
    (h : c ∈ l.dropWhile p) : c ∈ l := by
  induction l with
  | nil => simp at h
  | cons a t ih =>
    rw [List.dropWhile_cons] at h
    by_cases hp : p a = true
    · simp only [hp, if_true] at h
      exact List.mem_cons_of_mem a (ih h)
    · simp only [hp] at h
      simpa using h

/-- Helper: the head of `dropWhile p` falsifies `p`. -/
theorem head_dropWhile_false (p : Char → Bool) (l : List Char) (c : Char)
    (h : (l.dropWhile p).head? = some c) : p c = false := by
  induction l with
  | nil => simp [List.dropWhile] at h
  | cons a t ih =>
    rw [List.dropWhile_cons] at h
    by_cases hp : p a = true
    · simp only [hp, if_true] at h
      exact ih h
    · simp only [hp] at h
      simp at h
      subst h
      simpa using hp

/-- Helper: a list whose head (if any) falsifies `p` is fixed by
`dropWhile p`. -/
theorem dropWhile_fix_of_head (p : Char → Bool) (l : List Char)
    (h : ∀ c, l.head? = some c → p c = false) : l.dropWhile p = l := by
  cases l with
  | nil => rfl
  | cons a t =>
    have ha : p a = false := h a rfl
    simp [List.dropWhile_cons, ha]

/-- Helper: `dropWhile` removes an initial segment. -/
theorem dropWhile_eq_append (p : Char → Bool) (l : List Char) :
    ∃ l1, l = l1 ++ l.dropWhile p := by
  induction l with
  | nil => exact ⟨[], rfl⟩
  | cons a t ih =>
    rw [List.dropWhile_cons]
    by_cases hp : p a = true
    · obtain ⟨l1, h1⟩ := ih
      exact ⟨a :: l1, by simp [hp, ← h1]⟩
    · exact ⟨[], by simp [hp]⟩

/-- Helper: `Chain'` restricts to `dropWhile`. -/
theorem chain_dropWhile (R : Char → Char → Prop) (p : Char → Bool) (l : List Char)
    (h : List.Chain' R l) : List.Chain' R (l.dropWhile p) := by
  induction l with
  | nil => simp
  | cons a t ih =>
    rw [List.dropWhile_cons]
    by_cases hp : p a = true
    · simp only [hp, if_true]
      exact ih (List.chain'_cons'.mp h).2
    · simpa [hp] using h

/-- Helper: characters of the collapsed list are hyphens or non-dash/space
characters of the input. -/
theorem collapseAux_mem (l : List Char) :
    ∀ (b : Bool) (c : Char), c ∈ collapseAux b l →
      c = '-' ∨ (c ∈ l ∧ isDashSpace c = false) := by
  induction l with
  | nil =>
    intro b c h
    simp [collapseAux] at h
  | cons a t ih =>
    intro b c h
    by_cases hda : isDashSpace a = true
    · simp only [collapseAux, hda, if_true] at h
      have hmain : c = '-' ∨ c ∈ collapseAux true t := by
        cases b
        · rw [if_neg (by simp)] at h
          exact List.mem_cons.mp h
        · rw [if_pos rfl] at h
          exact Or.inr h
      rcases hmain with h2 | h2
      · exact Or.inl h2
      · rcases ih true c h2 with h3 | ⟨h3, h4⟩
        · exact Or.inl h3
        · exact Or.inr ⟨List.mem_cons_of_mem a h3, h4⟩
    · simp only [collapseAux, hda, if_false, Bool.false_eq_true] at h
      rcases List.mem_cons.mp h with h | h
      · rw [h]
        exact Or.inr ⟨List.mem_cons_self a t, by simpa using hda⟩
      · rcases ih false c h with h2 | ⟨h2, h3⟩
        · exact Or.inl h2
        · exact Or.inr ⟨List.mem_cons_of_mem a h2, h3⟩

/-- Helper: the head of `collapseAux true` is never a dash/space character. -/
theorem collapseAux_true_head (l : List Char) :
    ∀ c, (collapseAux true l).head? = some c → isDashSpace c = false := by
  induction l with
  | nil =>
    intro c h
    simp [collapseAux] at h
  | cons a t ih =>
    intro c h
    by_cases hda : isDashSpace a = true
    · simp only [collapseAux, hda, if_true] at h
      exact ih c h
    · simp only [collapseAux, hda, if_false, Bool.false_eq_true] at h
      simp at h
      subst h
      simpa using hda

/-- Helper: the collapsed list has no two adjacent dash/space characters. -/
theorem collapseAux_chain (l : List Char) :
    ∀ b, List.Chain' noDashSpacePair (collapseAux b l) := by
  induction l with
  | nil =>
    intro b
    simp [collapseAux]
  | cons a t ih =>
    intro b
    by_cases hda : isDashSpace a = true
    · cases b
      · simp only [collapseAux, hda, if_true]
        rw [if_neg (by simp)]
        rw [List.chain'_cons']
        refine ⟨?_, ih true⟩
        intro y hy
        have hy2 : isDashSpace y = false :=
          collapseAux_true_head t y (Option.mem_def.mp hy)
        intro hcon
        rw [hy2] at hcon
        exact absurd hcon.2 (by simp)
      · simp only [collapseAux, hda, if_true]
        exact ih true
    · simp only [collapseAux, hda, if_false, Bool.false_eq_true]
      rw [List.chain'_cons']
      refine ⟨?_, ih false⟩
      intro y _
      intro hcon
      exact absurd hcon.1 hda

/-- Helper: members of `pyStrip` are members of the list. -/
theorem mem_of_mem_pyStrip (p : Char → Bool) (l : List Char) (c : Char)
    (h : c ∈ pyStrip p l) : c ∈ l := by
  unfold pyStrip at h
  simp only [List.rdropWhile] at h
  rw [List.mem_reverse] at h
  have h1 := mem_of_mem_dropWhile p (l.dropWhile p).reverse c h
  rw [List.mem_reverse] at h1
  exact mem_of_mem_dropWhile p l c h1

/-- Helper: `Chain'` is preserved by `pyStrip`. -/
theorem chain_pyStrip (p : Char → Bool) (l : List Char)
    (h : List.Chain' noDashSpacePair l) :
    List.Chain' noDashSpacePair (pyStrip p l) := by
  unfold pyStrip
  simp only [List.rdropWhile]
  have h1 : List.Chain' noDashSpacePair (l.dropWhile p) :=
    chain_dropWhile noDashSpacePair p l h
  have h2 : List.Chain' (flip noDashSpacePair) (l.dropWhile p).reverse := by
    rw [List.chain'_reverse]
    exact h1
  have h3 : List.Chain' (flip noDashSpacePair) ((l.dropWhile p).reverse.dropWhile p) :=
    chain_dropWhile (flip noDashSpacePair) p _ h2
  rw [List.chain'_reverse]
  exact h3

/-- Helper: the head of `pyStrip p` falsifies `p`. -/
theorem pyStrip_head (p : Char → Bool) (l : List Char) (c : Char)
    (h : (pyStrip p l).head? = some c) : p c = false := by
  unfold pyStrip at h
  simp only [List.rdropWhile] at h
  obtain ⟨w1, hw⟩ := dropWhile_eq_append p (l.dropWhile p).reverse
  have hy2 : l.dropWhile p
      = ((l.dropWhile p).reverse.dropWhile p).reverse ++ w1.reverse := by
    have h0 := congrArg List.reverse hw
    simpa [List.reverse_append] using h0
  rcases hzr : ((l.dropWhile p).reverse.dropWhile p).reverse with _ | ⟨d, t⟩
  · rw [hzr] at h
    simp at h
  · rw [hzr] at h
    simp at h
    subst h
    have hhead : (l.dropWhile p).head? = some d := by
      rw [hy2, hzr]
      rfl
    exact head_dropWhile_false p l d hhead

/-- Helper: the last character of `pyStrip p` falsifies `p`. -/
theorem pyStrip_last (p : Char → Bool) (l : List Char) (c : Char)
    (h : (pyStrip p l).reverse.head? = some c) : p c = false := by
  unfold pyStrip at h
  simp only [List.rdropWhile, List.reverse_reverse] at h
  exact head_dropWhile_false p (l.dropWhile p).reverse c h

/-- Helper: every `slugify` output is a good slug. -/
theorem slugify_good (s : List Char) : GoodSlug (slugify s) := by
  unfold slugify collapseDashes
  have hl1mem : ∀ c ∈ (s.map Char.toLower).filter slugKeep,
      slugKeep c = true ∧ c.toLower = c := by
    intro c hc
    rw [List.mem_filter] at hc
    refine ⟨hc.2, ?_⟩
    rcases List.mem_map.mp hc.1 with ⟨a, _, ha⟩
    rw [← ha]
    exact toLower_idem a
  have hwmem : ∀ c ∈ collapseAux false ((s.map Char.toLower).filter slugKeep),
      SlugChar c := by
    intro c hc
    rcases collapseAux_mem _ false c hc with h | ⟨hmem, hds⟩
    · exact Or.inr h
    · exact Or.inl ⟨keep_not_dashspace_word c (hl1mem c hmem).1 hds, (hl1mem c hmem).2⟩
  refine ⟨?_, ?_, ?_, ?_⟩
  · intro c hc
    exact hwmem c (mem_of_mem_pyStrip isDashChar _ c hc)
  · exact chain_pyStrip isDashChar _ (collapseAux_chain _ false)
  · intro c hc
    exact pyStrip_head isDashChar _ c hc
  · intro c hc
    exact pyStrip_last isDashChar _ c hc

/-- Helper: collapsing is the identity on lists with isolated, slug-shaped
dash/space characters. -/
theorem collapseAux_fix (l : List Char) :
    ∀ b, (∀ c ∈ l, SlugChar c) →
      List.Chain' noDashSpacePair l →
      (b = true → ∀ c, l.head? = some c → isDashSpace c = false) →
      collapseAux b l = l := by
  induction l with
  | nil =>
    intro b _ _ _
    rfl
  | cons a t ih =>
    intro b hmem hchain hb
    have hchain' := List.chain'_cons'.mp hchain
    by_cases hda : isDashSpace a = true
    · have ha : a = '-' := by
        rcases hmem a (List.mem_cons_self a t) with ⟨hw, _⟩ | h
        · exact absurd hda (by simp [word_not_dashspace a hw])
        · exact h
      cases b
      · simp only [collapseAux, hda, if_true]
        rw [if_neg (by simp), ha]
        congr 1
        apply ih true (fun c hc => hmem c (List.mem_cons_of_mem a hc)) hchain'.2
        intro _ c hc
        have hR := hchain'.1 c (Option.mem_def.mpr hc)
        by_contra hcc
        rw [Bool.not_eq_false] at hcc
        exact hR ⟨hda, hcc⟩
      · exact absurd (hb rfl a rfl) (by simp [hda])
    · simp only [collapseAux, hda, if_false, Bool.false_eq_true]
      congr 1
      apply ih false (fun c hc => hmem c (List.mem_cons_of_mem a hc)) hchain'.2
      intro h
      exact absurd h (by simp)

/-- Helper: stripping is the identity when neither end satisfies `p`. -/
theorem pyStrip_fix (p : Char → Bool) (l : List Char)
    (hh : ∀ c, l.head? = some c → p c = false)
    (hl : ∀ c, l.reverse.head? = some c → p c = false) :
    pyStrip p l = l := by
  unfold pyStrip
  rw [dropWhile_fix_of_head p l hh]
  simp only [List.rdropWhile]
  rw [dropWhile_fix_of_head p l.reverse hl]
  exact List.reverse_reverse l

/-- Helper: `slugify` fixes every good slug. -/
theorem slugify_fix (l : List Char) (h : GoodSlug l) : slugify l = l := by
  obtain ⟨hmem, hchain, hh, hl⟩ := h
  unfold slugify collapseDashes
  have h1 : l.map Char.toLower = l := by
    apply map_fix_of_mem
    intro c hc
    rcases hmem c hc with ⟨_, hfix⟩ | hdash
    · exact hfix
    · rw [hdash]
      rfl
  rw [h1]
  have h2 : l.filter slugKeep = l := by
    apply filter_fix_of_mem
    intro c hc
    rcases hmem c hc with ⟨hw, _⟩ | hdash
    · simp [slugKeep, hw]
    · rw [hdash]
      rfl
  rw [h2]
  have h3 : collapseAux false l = l := by
    apply collapseAux_fix l false hmem hchain
    intro h
    exact absurd h (by simp)
  rw [h3]
  exact pyStrip_fix isDashChar l hh hl

/-- C7: `slugify` is deterministic (it is a function of its input alone) and
idempotent: applying it to its own output returns that output unchanged, for
every string. -/
theorem C7_slugify_idempotent (s : List Char) :
    slugify (slugify s) = slugify s :=
  slugify_fix (slugify s) (slugify_good s)

/-- C4 counterexample: with `templates/about.html` absent (no file exists),
`copy_about_page` raises nothing: it returns the warn-and-skip outcome
(`ok false`), so a missing about-page template does not abort the run. -/
theorem C4_counterexample_missing_template_not_fatal :
    copy_about_page (fun _ => false) = Except.ok false := rfl

/-- C4 (amended): error taxonomy. A missing about-page template is NOT
fatal — `copy_about_page` always returns normally, copying exactly when the
template exists and warning-and-skipping otherwise; a missing recipes data
file raises an uncaught file-not-found; a fetch failure is counted and the
batch continues; and a missing optional recipe field (the name) silently
defaults, never an error. -/
theorem C4_error_taxonomy (fsExists : String → Bool)
    (fetchOk : String → String → Bool) (i : Nat) (st : St) (r : Recipe)
    (imageUrl : String) (rest : List String) (reason : Reason)
    (recipes : List Recipe)
    (him : r.image = imageUrl :: rest)
    (hneed : needs_download (st.files.contains (effId i r ++ imageExt imageUrl))
        (lookupMap st.imageMap (effId i r)) imageUrl = some reason)
    (hfail : fetchOk (effId i r) imageUrl = false)
    (hname : r.name = none) :
    copy_about_page fsExists = Except.ok (fsExists "templates/about.html") ∧
    (fsExists "data/recipes.json" = false →
      load_recipes fsExists "data/recipes.json" recipes
        = Except.error (PageError.fileNotFound "data/recipes.json")) ∧
    ((processRecipe fetchOk i st r).1.failed = st.failed + 1 ∧
      ((processAll fetchOk i st (r :: recipes)).2).length = recipes.length + 1) ∧
    recipeDisplayName r = "Untitled Recipe" := by
  refine ⟨?_, ?_, ⟨?_, ?_⟩, ?_⟩
  · unfold copy_about_page
    by_cases h : fsExists "templates/about.html" = true <;> simp [h]
  · intro h
    simp [load_recipes, h]
  · unfold processRecipe
    rw [him]
    simp only [hneed, hfail]
    by_cases hr : reason = Reason.urlChanged <;> simp [hr]
  · simpa using processAll_length fetchOk (r :: recipes) i st
  · simp [recipeDisplayName, hname]

/-- Witness for C4 at a concrete empty filesystem, failing fetch oracle and a
nameless recipe. -/
theorem C4_error_taxonomy_witness :
    copy_about_page (fun _ => false) = Except.ok ((fun _ : String => false) "x") ∧
    load_recipes (fun _ => false) "data/recipes.json" []
      = Except.error (PageError.fileNotFound "data/recipes.json") ∧
    (processRecipe (fun _ _ => false) 1 (St.mk [] [] 0 0 0 0)
        (Recipe.mk (some "r1") none ["http://x/a.png"] none)).1.failed = 0 + 1 ∧
    recipeDisplayName (Recipe.mk (some "r1") none ["http://x/a.png"] none)
      = "Untitled Recipe" := by
  have h := C4_error_taxonomy (fun _ => false) (fun _ _ => false) 1
    (St.mk [] [] 0 0 0 0) (Recipe.mk (some "r1") none ["http://x/a.png"] none)
    "http://x/a.png" [] Reason.newImage [] rfl (by decide) rfl rfl
  exact ⟨h.1, h.2.1 rfl, h.2.2.1.1, h.2.2.2⟩

end Recipes
